import Mathlib

/-!
Shallow embedding of the in-memory message CRUD service
(Fastify handlers over a `Map`-backed store with a counter-based id
generator), together with proofs of its specified properties.

The store (`messages = new Map()`) is modelled as an association list in
insertion order, mirroring the iteration order of a JavaScript `Map`:
`set` on a present key replaces the value in place, `set` on an absent key
appends, `delete` removes the entry.  Request-body values are modelled by
`JsValue`; the clock inputs (`Date.now()`, `new Date().toISOString()`)
are passed to each handler as explicit parameters.
-/

namespace MessageService

/-- JavaScript values that can reach the handlers as a request body or as
its destructured `content` field.  Numbers are modelled as integers
(floating point and `NaN` play no role in the validation logic for the
inputs considered here). -/
inductive JsValue where
  | undefined
  | null
  | bool (b : Bool)
  | num (n : Int)
  | str (s : String)
  | obj (fields : List (String × JsValue))

/-- JavaScript falsiness, as used by `!content`. -/
def jsFalsy : JsValue → Bool
  | .undefined => true
  | .null => true
  | .bool b => !b
  | .num n => n == 0
  | .str s => s == ""
  | .obj _ => false

/-- `typeof content === 'string'`. -/
def isStringVal : JsValue → Bool
  | .str _ => true
  | _ => false

/-- `String.prototype.trim`: strip leading and trailing whitespace.
Modelled over the character list (structural recursion, so it computes
in the kernel); the whitespace class is `Char.isWhitespace`, covering
the space/tab/newline/return characters relevant to the JSON inputs. -/
def jsTrim (s : String) : String :=
  ⟨((s.data.dropWhile Char.isWhitespace).reverse.dropWhile Char.isWhitespace).reverse⟩

/-- `content.trim() === ''`, evaluated only on the string branch (the
handlers short-circuit on `typeof` before calling `trim`). -/
def trimIsEmpty : JsValue → Bool
  | .str s => jsTrim s == ""
  | _ => false

/-- The validation guard shared by the POST and PUT handlers:
`!content || typeof content !== 'string' || content.trim() === ''`. -/
def contentInvalid (content : JsValue) : Bool :=
  jsFalsy content || !(isStringVal content) || trimIsEmpty content

/-- Extraction of the string payload after the guard has passed (on the
success path `content` is known to be a string). -/
def asString : JsValue → String
  | .str s => s
  | _ => ""

/-- The `Message` record. -/
structure Message where
  id : String
  content : String
  createdAt : String
  updatedAt : String
deriving DecidableEq

/-- Response bodies produced by the handlers. -/
inductive RespBody where
  | msg (m : Message)
  | msgs (l : List Message)
  | err (e : String)
  | empty
deriving DecidableEq

/-- An HTTP response: status code plus body. -/
structure Response where
  status : Nat
  body : RespBody
deriving DecidableEq

/-- Server state: the `messages` map (insertion-ordered association list)
and the `idCounter`. -/
structure ServerState where
  messages : List (String × Message)
  idCounter : Nat
deriving DecidableEq

/-- `messages.get(id)`. -/
def mapGet (l : List (String × Message)) (k : String) : Option Message :=
  match l with
  | [] => none
  | (k', v) :: rest => if k' = k then some v else mapGet rest k

/-- `messages.set(id, v)`: replace in place when the key is present,
append otherwise (JavaScript `Map` insertion-order semantics). -/
def mapSet (l : List (String × Message)) (k : String) (v : Message) :
    List (String × Message) :=
  match l with
  | [] => [(k, v)]
  | (k', v') :: rest => if k' = k then (k', v) :: rest else (k', v') :: mapSet rest k v

/-- `messages.delete(id)`: remove the entry with the given key. -/
def mapDelete (l : List (String × Message)) (k : String) :
    List (String × Message) :=
  match l with
  | [] => []
  | (k', v') :: rest => if k' = k then rest else (k', v') :: mapDelete rest k

/-- The error string of the validation failure branch. -/
def validationErrorMsg : String := "Content is required and must be a non-empty string"

/-- The error string of the not-found branch. -/
def notFoundMsg : String := "Message not found"

/-- `` `${Date.now()}-${idCounter}` ``: the generated message id. -/
def genId (now : Nat) (counter : Nat) : String :=
  Nat.repr now ++ "-" ++ Nat.repr counter

/-- The initial server state: empty store, counter `0`. -/
def initState : ServerState := ⟨[], 0⟩

/-- POST `/messages`: validate, generate id and timestamp, insert, 201.
`now` is `Date.now()`, `timestamp` is `new Date().toISOString()`. -/
def postMessages (now : Nat) (timestamp : String) (content : JsValue)
    (st : ServerState) : Response × ServerState :=
  if contentInvalid content then
    ({ status := 400, body := .err validationErrorMsg }, st)
  else
    let id := genId now st.idCounter
    let message : Message :=
      { id := id, content := asString content, createdAt := timestamp, updatedAt := timestamp }
    ({ status := 201, body := .msg message },
     { messages := mapSet st.messages id message, idCounter := st.idCounter + 1 })

/-- GET `/messages`: return all messages in insertion order, 200. -/
def getAllMessages (st : ServerState) : Response × ServerState :=
  ({ status := 200, body := .msgs (st.messages.map Prod.snd) }, st)

/-- GET `/messages/:id`: look up, 404 when absent, 200 with the message. -/
def getOneMessage (id : String) (st : ServerState) : Response × ServerState :=
  match mapGet st.messages id with
  | none => ({ status := 404, body := .err notFoundMsg }, st)
  | some m => ({ status := 200, body := .msg m }, st)

/-- PUT `/messages/:id`: validate content first, then look up; on success
rewrite `content` and `updatedAt` (spread preserves `id`, `createdAt`),
store, 200.  `timestamp` is the fresh `new Date().toISOString()`. -/
def putMessage (id : String) (content : JsValue) (timestamp : String)
    (st : ServerState) : Response × ServerState :=
  if contentInvalid content then
    ({ status := 400, body := .err validationErrorMsg }, st)
  else
    match mapGet st.messages id with
    | none => ({ status := 404, body := .err notFoundMsg }, st)
    | some m =>
      let updated : Message :=
        { m with content := asString content, updatedAt := timestamp }
      ({ status := 200, body := .msg updated },
       { st with messages := mapSet st.messages id updated })

/-- DELETE `/messages/:id`: look up, 404 when absent; on success remove
and reply 204 with an empty body. -/
def deleteMessage (id : String) (st : ServerState) : Response × ServerState :=
  match mapGet st.messages id with
  | none => ({ status := 404, body := .err notFoundMsg }, st)
  | some _ => ({ status := 204, body := .empty }, { st with messages := mapDelete st.messages id })

/-- One request to the service, with its clock inputs. -/
inductive Op where
  | create (now : Nat) (ts : String) (content : JsValue)
  | list
  | getOne (id : String)
  | update (id : String) (content : JsValue) (ts : String)
  | del (id : String)

/-- Dispatch one request to its handler. -/
def applyOp : Op → ServerState → Response × ServerState
  | .create now ts content, st => postMessages now ts content st
  | .list, st => getAllMessages st
  | .getOne id, st => getOneMessage id st
  | .update id content ts, st => putMessage id content ts st
  | .del id, st => deleteMessage id st

/-- States reachable from process start by any sequence of requests. -/
inductive Reachable : ServerState → Prop
  | init : Reachable initState
  | step (op : Op) {st : ServerState} : Reachable st → Reachable (applyOp op st).2

/-- `const { content } = request.body` at the top of the POST and PUT
handlers: destructuring `undefined` or `null` throws a `TypeError`
(modelled as `none`); on an object it reads the `content` field
(`undefined` when missing); on any other primitive it yields
`undefined` without throwing. -/
def destructureContent : JsValue → Option JsValue
  | .undefined => none
  | .null => none
  | .obj fields =>
    some ((fields.lookup "content").getD .undefined)
  | _ => some .undefined

/-- The POST handler taking the raw request body: destructure, then run
the handler logic.  `none` models the destructuring throw escaping the
handler (surfaced by the server substrate as a 500, not a 400). -/
def postHandlerBody (now : Nat) (timestamp : String) (body : JsValue)
    (st : ServerState) : Option (Response × ServerState) :=
  (destructureContent body).map (fun content => postMessages now timestamp content st)

/-- The PUT handler taking the raw request body, analogously. -/
def putHandlerBody (id : String) (body : JsValue) (timestamp : String)
    (st : ServerState) : Option (Response × ServerState) :=
  (destructureContent body).map (fun content => putMessage id content timestamp st)

/-! ## Basic lemmas about the validation guard and the store -/

theorem contentInvalid_false_iff (c : JsValue) :
    contentInvalid c = false ↔ ∃ s, c = .str s ∧ jsTrim s ≠ "" := by
  cases c with
  | str s =>
    constructor
    · intro h
      refine ⟨s, rfl, ?_⟩
      intro hts
      simp [contentInvalid, jsFalsy, isStringVal, trimIsEmpty, hts] at h
    · rintro ⟨s', hs', hne⟩
      injection hs' with h
      subst h
      have hs0 : ¬ s = "" := by
        intro h0
        subst h0
        exact hne (by decide)
      simp [contentInvalid, jsFalsy, isStringVal, trimIsEmpty, hs0, hne]
  | undefined => simp [contentInvalid, jsFalsy]
  | null => simp [contentInvalid, jsFalsy]
  | bool b => simp [contentInvalid, jsFalsy, isStringVal]
  | num n => simp [contentInvalid, jsFalsy, isStringVal]
  | obj fields => simp [contentInvalid, jsFalsy, isStringVal, trimIsEmpty]

theorem contentInvalid_str (s : String) (h : jsTrim s ≠ "") :
    contentInvalid (.str s) = false :=
  (contentInvalid_false_iff _).2 ⟨s, rfl, h⟩

theorem mapGet_eq_none_iff (l : List (String × Message)) (k : String) :
    mapGet l k = none ↔ k ∉ l.map Prod.fst := by
  induction l with
  | nil => simp [mapGet]
  | cons p rest ih =>
    obtain ⟨k', v'⟩ := p
    by_cases h : k' = k
    · subst h
      simp [mapGet]
    · simp [mapGet, h, ih, Ne.symm h]

theorem mapGet_mapSet_self (l : List (String × Message)) (k : String) (v : Message) :
    mapGet (mapSet l k v) k = some v := by
  induction l with
  | nil => simp [mapSet, mapGet]
  | cons p rest ih =>
    obtain ⟨k', v'⟩ := p
    by_cases h : k' = k
    · simp [mapSet, mapGet, h]
    · simp [mapSet, mapGet, h, ih]

theorem mapGet_mapSet_ne (l : List (String × Message)) (j k : String) (v : Message)
    (h : j ≠ k) : mapGet (mapSet l j v) k = mapGet l k := by
  induction l with
  | nil => simp [mapSet, mapGet, h]
  | cons p rest ih =>
    obtain ⟨k', v'⟩ := p
    by_cases hk : k' = j
    · subst hk
      simp [mapSet, mapGet, h]
    · simp [mapSet, mapGet, hk, ih]

theorem mapGet_mapDelete_none (l : List (String × Message)) (j k : String)
    (h : mapGet l k = none) : mapGet (mapDelete l j) k = none := by
  induction l with
  | nil => simp [mapDelete, mapGet]
  | cons p rest ih =>
    obtain ⟨k', v'⟩ := p
    by_cases hk : k' = k
    · subst hk
      simp [mapGet] at h
    · by_cases hj : k' = j
      · subst hj
        simp [mapGet, hk] at h
        simp [mapDelete, h]
      · simp [mapGet, hk] at h
        simp [mapDelete, hj, mapGet, hk, ih h]

theorem mapGet_mapDelete_self (l : List (String × Message)) (k : String)
    (h : (l.map Prod.fst).Nodup) : mapGet (mapDelete l k) k = none := by
  induction l with
  | nil => simp [mapDelete, mapGet]
  | cons p rest ih =>
    obtain ⟨k', v'⟩ := p
    simp only [List.map_cons, List.nodup_cons] at h
    by_cases hk : k' = k
    · subst hk
      simp only [mapDelete, if_pos rfl]
      exact (mapGet_eq_none_iff rest k').2 h.1
    · simp [mapDelete, hk, mapGet, ih h.2]

theorem mapSet_fresh (l : List (String × Message)) (k : String) (v : Message)
    (h : mapGet l k = none) : mapSet l k v = l ++ [(k, v)] := by
  induction l with
  | nil => simp [mapSet]
  | cons p rest ih =>
    obtain ⟨k', v'⟩ := p
    by_cases hk : k' = k
    · subst hk
      simp [mapGet] at h
    · simp [mapGet, hk] at h
      simp [mapSet, hk, ih h]

/-! ## Decimal representation: generated ids are injective in the counter -/

/-- One step of reading a decimal digit string (most significant first). -/
def digitStep (a : Nat) (c : Char) : Nat := a * 10 + (c.toNat - 48)

/-- Value of a decimal digit string, used to invert `Nat.repr`. -/
def decodeDigits (l : List Char) : Nat := l.foldl digitStep 0

theorem digitChar_toNat_sub (m : Nat) (h : m < 10) : (Nat.digitChar m).toNat - 48 = m := by
  interval_cases m <;> decide

theorem toDigitsCore_decode (fuel : Nat) :
    ∀ n acc, n < 10 ^ fuel →
      (Nat.toDigitsCore 10 fuel n acc).foldl digitStep 0 = acc.foldl digitStep n := by
  induction fuel with
  | zero =>
    intro n acc hn
    interval_cases n
    simp [Nat.toDigitsCore]
  | succ fuel ih =>
    intro n acc hn
    simp only [Nat.toDigitsCore]
    by_cases h10 : n / 10 = 0
    · rw [if_pos h10, List.foldl_cons]
      have hlt : n < 10 := by omega
      have hstep : digitStep 0 (Nat.digitChar (n % 10)) = n := by
        unfold digitStep
        rw [digitChar_toNat_sub (n % 10) (Nat.mod_lt _ (by norm_num))]
        omega
      rw [hstep]
    · rw [if_neg h10]
      have hn' : n / 10 < 10 ^ fuel := by
        rw [Nat.div_lt_iff_lt_mul (by norm_num : 0 < 10)]
        calc n < 10 ^ (fuel + 1) := hn
          _ = 10 ^ fuel * 10 := by rw [pow_succ]
      rw [ih (n / 10) (Nat.digitChar (n % 10) :: acc) hn', List.foldl_cons]
      congr 1
      unfold digitStep
      rw [digitChar_toNat_sub (n % 10) (Nat.mod_lt _ (by norm_num))]
      omega

theorem decodeDigits_repr (n : Nat) : decodeDigits (Nat.repr n).data = n := by
  have hbound : n < 10 ^ (n + 1) :=
    lt_of_lt_of_le (Nat.lt_pow_self (by norm_num) n)
      (Nat.pow_le_pow_right (by norm_num) (Nat.le_succ n))
  have hdata : (Nat.repr n).data = Nat.toDigitsCore 10 (n + 1) n [] := rfl
  unfold decodeDigits
  rw [hdata, toDigitsCore_decode (n + 1) n [] hbound]
  rfl

theorem repr_data_inj {m n : Nat} (h : (Nat.repr m).data = (Nat.repr n).data) : m = n := by
  have hm := decodeDigits_repr m
  have hn := decodeDigits_repr n
  rw [h] at hm
  rw [hn] at hm
  exact hm.symm

theorem digitChar_ne_dash (m : Nat) : Nat.digitChar m ≠ '-' := by
  by_cases h : m < 16
  · interval_cases m <;> decide
  · unfold Nat.digitChar
    repeat rw [if_neg (by omega)]
    decide

theorem toDigitsCore_no_dash (fuel : Nat) :
    ∀ n acc, '-' ∉ acc → '-' ∉ Nat.toDigitsCore 10 fuel n acc := by
  induction fuel with
  | zero =>
    intro n acc h
    simpa [Nat.toDigitsCore] using h
  | succ fuel ih =>
    intro n acc h
    have hcons : '-' ∉ Nat.digitChar (n % 10) :: acc := by
      intro hmem
      rcases List.mem_cons.1 hmem with h1 | h2
      · exact digitChar_ne_dash _ h1.symm
      · exact h h2
    simp only [Nat.toDigitsCore]
    split
    · exact hcons
    · exact ih _ _ hcons

theorem repr_no_dash (n : Nat) : '-' ∉ (Nat.repr n).data :=
  toDigitsCore_no_dash (n + 1) n [] (by simp)

theorem append_sep_inj {c : Char} :
    ∀ (l1 l2 r1 r2 : List Char), c ∉ l1 → c ∉ l2 →
      l1 ++ c :: r1 = l2 ++ c :: r2 → l1 = l2 ∧ r1 = r2 := by
  intro l1
  induction l1 with
  | nil =>
    intro l2 r1 r2 h1 h2 heq
    cases l2 with
    | nil => simpa using heq
    | cons x l2' =>
      simp only [List.nil_append, List.cons_append] at heq
      injection heq with hx htail
      subst hx
      exact absurd (List.mem_cons_self _ _) h2
  | cons x l1' ih =>
    intro l2 r1 r2 h1 h2 heq
    cases l2 with
    | nil =>
      simp only [List.cons_append, List.nil_append] at heq
      injection heq with hx htail
      subst hx
      exact absurd (List.mem_cons_self _ _) h1
    | cons y l2' =>
      simp only [List.cons_append] at heq
      injection heq with hxy htail
      subst hxy
      have h1' : c ∉ l1' := fun hm => h1 (List.mem_cons_of_mem _ hm)
      have h2' : c ∉ l2' := fun hm => h2 (List.mem_cons_of_mem _ hm)
      obtain ⟨ha, hb⟩ := ih l2' r1 r2 h1' h2' htail
      exact ⟨by rw [ha], hb⟩

theorem genId_inj_counter {n c n' c' : Nat} (h : genId n c = genId n' c') : c = c' := by
  have hd := congrArg String.data h
  simp only [genId, String.data_append] at hd
  have hd' : (Nat.repr n).data ++ '-' :: (Nat.repr c).data =
      (Nat.repr n').data ++ '-' :: (Nat.repr c').data := by
    simpa [List.append_assoc] using hd
  obtain ⟨_, h2⟩ := append_sep_inj _ _ _ _ (repr_no_dash n) (repr_no_dash n') hd'
  exact repr_data_inj h2

/-! ## Claim theorems: validation and error handling -/

/-- C2: in the update operation, content validity is checked before
existence of the target: invalid content (anything that is not a string
with non-empty trim) yields the 400 validation error regardless of the
store contents, while valid content on an absent id yields the 404
not-found error. -/
theorem update_validates_before_existence
    (id : String) (content : JsValue) (ts : String) (st : ServerState) :
    ((¬ ∃ s, content = .str s ∧ jsTrim s ≠ "") →
      (putMessage id content ts st).1 = ⟨400, .err validationErrorMsg⟩) ∧
    (∀ s, content = .str s → jsTrim s ≠ "" → mapGet st.messages id = none →
      (putMessage id content ts st).1 = ⟨404, .err notFoundMsg⟩) := by
  constructor
  · intro h
    have hinv : contentInvalid content = true := by
      cases hc : contentInvalid content with
      | true => rfl
      | false => exact absurd ((contentInvalid_false_iff content).1 hc) h
    simp [putMessage, hinv]
  · intro s hs hne hget
    subst hs
    simp [putMessage, contentInvalid_str s hne, hget]

/-- Witness for C2 at concrete inputs: empty-string content on the empty
store hits the 400 branch; valid content on an absent id hits the 404
branch. -/
theorem update_validates_before_existence_witness :
    (putMessage "x" (.str "") "T" initState).1 = ⟨400, .err validationErrorMsg⟩ ∧
    (putMessage "x" (.str "hi") "T" initState).1 = ⟨404, .err notFoundMsg⟩ :=
  ⟨(update_validates_before_existence "x" (.str "") "T" initState).1
      (by rintro ⟨s, hs, hne⟩; cases hs; exact hne (by decide)),
   (update_validates_before_existence "x" (.str "hi") "T" initState).2
      "hi" rfl (by decide) rfl⟩

/-- C3: a successful update of an existing message stores and returns a
message whose `content` is the new value and whose `updatedAt` is the
freshly supplied timestamp, while `id` and `createdAt` are identical to
their pre-update values. -/
theorem update_frame
    (id : String) (s : String) (ts : String) (st : ServerState) (m : Message)
    (hv : jsTrim s ≠ "") (hm : mapGet st.messages id = some m) :
    (putMessage id (.str s) ts st).1 =
      ⟨200, .msg { m with content := s, updatedAt := ts }⟩ ∧
    mapGet (putMessage id (.str s) ts st).2.messages id =
      some { m with content := s, updatedAt := ts } ∧
    ({ m with content := s, updatedAt := ts } : Message).id = m.id ∧
    ({ m with content := s, updatedAt := ts } : Message).createdAt = m.createdAt := by
  refine ⟨?_, ?_, rfl, rfl⟩
  · simp [putMessage, contentInvalid_str s hv, hm, asString]
  · simp [putMessage, contentInvalid_str s hv, hm, asString, mapGet_mapSet_self]

/-- Witness for C3: update the single message of a one-element store. -/
theorem update_frame_witness :
    (putMessage "0-0" (.str "new") "T2"
        ⟨[("0-0", ⟨"0-0", "old", "T1", "T1"⟩)], 1⟩).1 =
      ⟨200, .msg ⟨"0-0", "new", "T1", "T2"⟩⟩ ∧
    mapGet (putMessage "0-0" (.str "new") "T2"
        ⟨[("0-0", ⟨"0-0", "old", "T1", "T1"⟩)], 1⟩).2.messages "0-0" =
      some ⟨"0-0", "new", "T1", "T2"⟩ ∧
    (⟨"0-0", "new", "T1", "T2"⟩ : Message).id = "0-0" ∧
    (⟨"0-0", "new", "T1", "T2"⟩ : Message).createdAt = "T1" :=
  update_frame "0-0" "new" "T2" ⟨[("0-0", ⟨"0-0", "old", "T1", "T1"⟩)], 1⟩
    ⟨"0-0", "old", "T1", "T1"⟩ (by decide) rfl

/-- C5: on create and on update, the response is a 400 with a non-empty
error string exactly when the supplied content is missing, not a string,
or empty after trimming. -/
theorem validation_error_iff (now : Nat) (ts : String) (content : JsValue)
    (id : String) (st : ServerState) :
    (((postMessages now ts content st).1.status = 400 ∧
      ∃ e, (postMessages now ts content st).1.body = .err e ∧ e ≠ "") ↔
      ¬ ∃ s, content = .str s ∧ jsTrim s ≠ "") ∧
    (((putMessage id content ts st).1.status = 400 ∧
      ∃ e, (putMessage id content ts st).1.body = .err e ∧ e ≠ "") ↔
      ¬ ∃ s, content = .str s ∧ jsTrim s ≠ "") := by
  cases hc : contentInvalid content with
  | true =>
    have hr : ¬ ∃ s, content = .str s ∧ jsTrim s ≠ "" := by
      intro hex
      rw [(contentInvalid_false_iff content).2 hex] at hc
      exact Bool.false_ne_true hc
    constructor
    · constructor
      · intro _
        exact hr
      · intro _
        refine ⟨by simp [postMessages, hc], validationErrorMsg, by simp [postMessages, hc], by decide⟩
    · constructor
      · intro _
        exact hr
      · intro _
        refine ⟨by simp [putMessage, hc], validationErrorMsg, by simp [putMessage, hc], by decide⟩
  | false =>
    have hr : ∃ s, content = .str s ∧ jsTrim s ≠ "" :=
      (contentInvalid_false_iff content).1 hc
    constructor
    · simp [postMessages, hc, hr]
    · cases hg : mapGet st.messages id with
      | none => simp [putMessage, hc, hg, hr]
      | some m => simp [putMessage, hc, hg, hr]

/-- C7: whenever an operation fails with a 400 validation error or a 404
not-found error, the server state (store and counter) is left completely
untouched; in particular a failed update leaves the stored message
unchanged. -/
theorem failure_leaves_state_untouched (op : Op) (st : ServerState)
    (h : (applyOp op st).1.status = 400 ∨ (applyOp op st).1.status = 404) :
    (applyOp op st).2 = st := by
  cases op with
  | create now ts content =>
    cases hc : contentInvalid content with
    | true => simp [applyOp, postMessages, hc]
    | false => simp [applyOp, postMessages, hc] at h
  | list => rfl
  | getOne id =>
    cases hg : mapGet st.messages id with
    | none => simp [applyOp, getOneMessage, hg]
    | some m => simp [applyOp, getOneMessage, hg] at h
  | update id content ts =>
    cases hc : contentInvalid content with
    | true => simp [applyOp, putMessage, hc]
    | false =>
      cases hg : mapGet st.messages id with
      | none => simp [applyOp, putMessage, hc, hg]
      | some m => simp [applyOp, putMessage, hc, hg] at h
  | del id =>
    cases hg : mapGet st.messages id with
    | none => simp [applyOp, deleteMessage, hg]
    | some m => simp [applyOp, deleteMessage, hg] at h

/-- Witness for C7: a create with empty content fails with 400 and leaves
the initial state unchanged. -/
theorem failure_leaves_state_untouched_witness :
    (applyOp (.create 0 "T" (.str "")) initState).1.status = 400 ∧
    (applyOp (.create 0 "T" (.str "")) initState).2 = initState :=
  ⟨by decide,
   failure_leaves_state_untouched (.create 0 "T" (.str "")) initState (Or.inl (by decide))⟩

/-! ## Further store lemmas -/

theorem mapGet_some_mem (l : List (String × Message)) (k : String) (v : Message)
    (h : mapGet l k = some v) : (k, v) ∈ l := by
  induction l with
  | nil => simp [mapGet] at h
  | cons p rest ih =>
    obtain ⟨k', v'⟩ := p
    by_cases hk : k' = k
    · subst hk
      simp [mapGet] at h
      subst h
      exact List.mem_cons_self _ _
    · simp [mapGet, hk] at h
      exact List.mem_cons_of_mem _ (ih h)

theorem mem_mapSet (l : List (String × Message)) (k : String) (w : Message)
    (p : String × Message) (h : p ∈ mapSet l k w) : p = (k, w) ∨ p ∈ l := by
  induction l with
  | nil =>
    simp [mapSet] at h
    exact Or.inl h
  | cons q rest ih =>
    obtain ⟨k', v'⟩ := q
    by_cases hk : k' = k
    · subst hk
      simp only [mapSet, if_pos rfl] at h
      rcases List.mem_cons.1 h with h1 | h2
      · exact Or.inl h1
      · exact Or.inr (List.mem_cons_of_mem _ h2)
    · simp only [mapSet, if_neg hk] at h
      rcases List.mem_cons.1 h with h1 | h2
      · exact Or.inr (by rw [h1]; exact List.mem_cons_self _ _)
      · rcases ih h2 with h3 | h4
        · exact Or.inl h3
        · exact Or.inr (List.mem_cons_of_mem _ h4)

theorem mapSet_keys_of_get_some (l : List (String × Message)) (k : String) (v w : Message)
    (h : mapGet l k = some v) : (mapSet l k w).map Prod.fst = l.map Prod.fst := by
  induction l with
  | nil => simp [mapGet] at h
  | cons q rest ih =>
    obtain ⟨k', v'⟩ := q
    by_cases hk : k' = k
    · subst hk
      simp [mapSet]
    · simp [mapGet, hk] at h
      simp [mapSet, hk, ih h]

theorem mapSet_length_of_get_some (l : List (String × Message)) (k : String) (v w : Message)
    (h : mapGet l k = some v) : (mapSet l k w).length = l.length := by
  have h1 := congrArg List.length (mapSet_keys_of_get_some l k v w h)
  simpa using h1

theorem mapDelete_sublist (l : List (String × Message)) (k : String) :
    List.Sublist (mapDelete l k) l := by
  induction l with
  | nil => simp [mapDelete]
  | cons q rest ih =>
    obtain ⟨k', v'⟩ := q
    by_cases hk : k' = k
    · simp only [mapDelete, if_pos hk]
      exact List.sublist_cons_self _ _
    · simp only [mapDelete, if_neg hk]
      exact List.Sublist.cons₂ _ ih

theorem mapDelete_length_of_get_some (l : List (String × Message)) (k : String) (v : Message)
    (h : mapGet l k = some v) : (mapDelete l k).length + 1 = l.length := by
  induction l with
  | nil => simp [mapGet] at h
  | cons q rest ih =>
    obtain ⟨k', v'⟩ := q
    by_cases hk : k' = k
    · simp [mapDelete, hk]
    · simp [mapGet, hk] at h
      have := ih h
      simp only [mapDelete, if_neg hk, List.length_cons]
      omega

/-! ## The invariant over reachable states -/

/-- Invariant maintained by every handler: each stored entry's key was
produced by the id generator at a counter value below the current one,
keys are pairwise distinct, and each stored content does not trim to the
empty string. -/
def Inv (st : ServerState) : Prop :=
  (∀ p ∈ st.messages,
    (∃ n c, c < st.idCounter ∧ p.1 = genId n c) ∧ jsTrim p.2.content ≠ "") ∧
  (st.messages.map Prod.fst).Nodup

theorem inv_init : Inv initState := by
  constructor
  · intro p hp
    simp [initState] at hp
  · simp [initState]

theorem fresh_key (st : ServerState) (hinv : Inv st) (now : Nat) :
    mapGet st.messages (genId now st.idCounter) = none := by
  rw [mapGet_eq_none_iff]
  intro hmem
  rcases List.mem_map.1 hmem with ⟨p, hp, hpk⟩
  obtain ⟨⟨n, c, hc, hk⟩, _⟩ := hinv.1 p hp
  have hgen : genId n c = genId now st.idCounter := by
    rw [← hk]
    exact hpk
  have := genId_inj_counter hgen
  omega

theorem inv_applyOp (op : Op) (st : ServerState) (hinv : Inv st) :
    Inv (applyOp op st).2 := by
  cases op with
  | create now ts content =>
    cases hc : contentInvalid content with
    | true => simpa [applyOp, postMessages, hc] using hinv
    | false =>
      obtain ⟨s, hs, hne⟩ := (contentInvalid_false_iff content).1 hc
      subst hs
      have hfresh := fresh_key st hinv now
      have happ := mapSet_fresh st.messages (genId now st.idCounter)
        ⟨genId now st.idCounter, s, ts, ts⟩ hfresh
      have hmsgs : (applyOp (.create now ts (.str s)) st).2.messages =
          st.messages ++ [(genId now st.idCounter, ⟨genId now st.idCounter, s, ts, ts⟩)] := by
        simp [applyOp, postMessages, hc, asString, happ]
      have hctr : (applyOp (.create now ts (.str s)) st).2.idCounter = st.idCounter + 1 := by
        simp [applyOp, postMessages, hc]
      constructor
      · intro p hp
        rw [hmsgs] at hp
        rw [hctr]
        rcases List.mem_append.1 hp with hpl | hpr
        · obtain ⟨⟨n, c, hcc, hk⟩, hcontent⟩ := hinv.1 p hpl
          exact ⟨⟨n, c, by omega, hk⟩, hcontent⟩
        · simp only [List.mem_singleton] at hpr
          subst hpr
          exact ⟨⟨now, st.idCounter, by omega, rfl⟩, hne⟩
      · rw [hmsgs]
        simp only [List.map_append, List.map_cons, List.map_nil]
        rw [List.nodup_append]
        refine ⟨hinv.2, List.nodup_singleton _, ?_⟩
        intro a ha hb
        simp only [List.mem_singleton] at hb
        subst hb
        exact (mapGet_eq_none_iff _ _).1 hfresh ha
  | list => simpa [applyOp, getAllMessages] using hinv
  | getOne id =>
    cases hg : mapGet st.messages id with
    | none => simpa [applyOp, getOneMessage, hg] using hinv
    | some m => simpa [applyOp, getOneMessage, hg] using hinv
  | update id content ts =>
    cases hc : contentInvalid content with
    | true => simpa [applyOp, putMessage, hc] using hinv
    | false =>
      cases hg : mapGet st.messages id with
      | none => simpa [applyOp, putMessage, hc, hg] using hinv
      | some m =>
        obtain ⟨s, hs, hne⟩ := (contentInvalid_false_iff content).1 hc
        subst hs
        have hmsgs : (applyOp (.update id (.str s) ts) st).2.messages =
            mapSet st.messages id { m with content := s, updatedAt := ts } := by
          simp [applyOp, putMessage, hc, hg, asString]
        have hctr : (applyOp (.update id (.str s) ts) st).2.idCounter = st.idCounter := by
          simp [applyOp, putMessage, hc, hg]
        constructor
        · intro p hp
          rw [hmsgs] at hp
          rw [hctr]
          rcases mem_mapSet _ _ _ _ hp with h1 | h2
          · subst h1
            have hmem := mapGet_some_mem _ _ _ hg
            obtain ⟨⟨n, c, hcc, hk⟩, _⟩ := hinv.1 (id, m) hmem
            exact ⟨⟨n, c, hcc, hk⟩, hne⟩
          · exact hinv.1 p h2
        · rw [hmsgs, mapSet_keys_of_get_some st.messages id m _ hg]
          exact hinv.2
  | del id =>
    cases hg : mapGet st.messages id with
    | none => simpa [applyOp, deleteMessage, hg] using hinv
    | some m =>
      have hmsgs : (applyOp (.del id) st).2.messages = mapDelete st.messages id := by
        simp [applyOp, deleteMessage, hg]
      have hctr : (applyOp (.del id) st).2.idCounter = st.idCounter := by
        simp [applyOp, deleteMessage, hg]
      constructor
      · intro p hp
        rw [hmsgs] at hp
        rw [hctr]
        exact hinv.1 p (List.Sublist.subset (mapDelete_sublist _ _) hp)
      · rw [hmsgs]
        exact List.Nodup.sublist (List.Sublist.map _ (mapDelete_sublist _ _)) hinv.2

theorem reachable_inv {st : ServerState} (h : Reachable st) : Inv st := by
  induction h with
  | init => exact inv_init
  | step op hre ih => exact inv_applyOp op _ ih

/-! ## Traces -/

/-- Run a sequence of requests from a state. -/
def execTrace : List Op → ServerState → ServerState
  | [], st => st
  | op :: ops, st => execTrace ops (applyOp op st).2

/-- `op` is a successful create that inserts key `k` when run in `st`. -/
def createsKey (op : Op) (st : ServerState) (k : String) : Prop :=
  ∃ now ts content, op = .create now ts content ∧ contentInvalid content = false ∧
    genId now st.idCounter = k

/-- No request of the trace is a successful create of key `k`. -/
def NoCreateOf : List Op → ServerState → String → Prop
  | [], _, _ => True
  | op :: ops, st, k => ¬ createsKey op st k ∧ NoCreateOf ops (applyOp op st).2 k

theorem absent_preserved (op : Op) (st : ServerState) (k : String)
    (h : mapGet st.messages k = none) (hnc : ¬ createsKey op st k) :
    mapGet (applyOp op st).2.messages k = none := by
  cases op with
  | create now ts content =>
    cases hc : contentInvalid content with
    | true => simpa [applyOp, postMessages, hc] using h
    | false =>
      have hne : genId now st.idCounter ≠ k := by
        intro he
        exact hnc ⟨now, ts, content, rfl, hc, he⟩
      have hmsgs : (applyOp (.create now ts content) st).2.messages =
          mapSet st.messages (genId now st.idCounter)
            ⟨genId now st.idCounter, asString content, ts, ts⟩ := by
        simp [applyOp, postMessages, hc]
      rw [hmsgs, mapGet_mapSet_ne _ _ _ _ hne]
      exact h
  | list => simpa [applyOp, getAllMessages] using h
  | getOne id =>
    cases hg : mapGet st.messages id with
    | none => simpa [applyOp, getOneMessage, hg] using h
    | some m => simpa [applyOp, getOneMessage, hg] using h
  | update id content ts =>
    cases hc : contentInvalid content with
    | true => simpa [applyOp, putMessage, hc] using h
    | false =>
      cases hg : mapGet st.messages id with
      | none => simpa [applyOp, putMessage, hc, hg] using h
      | some m =>
        have hne : id ≠ k := by
          intro he
          rw [he, h] at hg
          exact Option.noConfusion hg
        have hmsgs : (applyOp (.update id content ts) st).2.messages =
            mapSet st.messages id { m with content := asString content, updatedAt := ts } := by
          simp [applyOp, putMessage, hc, hg]
        rw [hmsgs, mapGet_mapSet_ne _ _ _ _ hne]
        exact h
  | del id =>
    cases hg : mapGet st.messages id with
    | none => simpa [applyOp, deleteMessage, hg] using h
    | some m =>
      have hmsgs : (applyOp (.del id) st).2.messages = mapDelete st.messages id := by
        simp [applyOp, deleteMessage, hg]
      rw [hmsgs]
      exact mapGet_mapDelete_none _ _ _ h

theorem absent_preserved_trace (ops : List Op) :
    ∀ st k, mapGet st.messages k = none → NoCreateOf ops st k →
      mapGet (execTrace ops st).messages k = none := by
  induction ops with
  | nil =>
    intro st k h _
    exact h
  | cons op ops ih =>
    intro st k h hnc
    exact ih _ _ (absent_preserved op st k h hnc.1) hnc.2

/-! ## Counting successful creates and deletes along a trace -/

/-- Run a trace and count responses with status 201 (successful creates)
and status 204 (successful deletes). -/
def runCount : List Op → ServerState → ServerState × Nat × Nat
  | [], st => (st, 0, 0)
  | op :: ops, st =>
    ((runCount ops (applyOp op st).2).1,
     (if (applyOp op st).1.status = 201 then 1 else 0) + (runCount ops (applyOp op st).2).2.1,
     (if (applyOp op st).1.status = 204 then 1 else 0) + (runCount ops (applyOp op st).2).2.2)

theorem length_step (op : Op) (st : ServerState) (hinv : Inv st) :
    (applyOp op st).2.messages.length +
        (if (applyOp op st).1.status = 204 then 1 else 0) =
      st.messages.length + (if (applyOp op st).1.status = 201 then 1 else 0) := by
  cases op with
  | create now ts content =>
    cases hc : contentInvalid content with
    | true => simp [applyOp, postMessages, hc]
    | false =>
      have hfresh := fresh_key st hinv now
      have happ := mapSet_fresh st.messages (genId now st.idCounter)
        ⟨genId now st.idCounter, asString content, ts, ts⟩ hfresh
      simp [applyOp, postMessages, hc, happ]
  | list => simp [applyOp, getAllMessages]
  | getOne id =>
    cases hg : mapGet st.messages id with
    | none => simp [applyOp, getOneMessage, hg]
    | some m => simp [applyOp, getOneMessage, hg]
  | update id content ts =>
    cases hc : contentInvalid content with
    | true => simp [applyOp, putMessage, hc]
    | false =>
      cases hg : mapGet st.messages id with
      | none => simp [applyOp, putMessage, hc, hg]
      | some m =>
        have hlen := mapSet_length_of_get_some st.messages id m
          { m with content := asString content, updatedAt := ts } hg
        simp [applyOp, putMessage, hc, hg, hlen]
  | del id =>
    cases hg : mapGet st.messages id with
    | none => simp [applyOp, deleteMessage, hg]
    | some m =>
      have hlen := mapDelete_length_of_get_some st.messages id m hg
      simp only [applyOp, deleteMessage, hg]
      simpa using hlen

theorem runCount_length (ops : List Op) :
    ∀ st, Inv st →
      (runCount ops st).1.messages.length + (runCount ops st).2.2 =
        st.messages.length + (runCount ops st).2.1 := by
  induction ops with
  | nil =>
    intro st _
    simp [runCount]
  | cons op ops ih =>
    intro st hinv
    have h1 := length_step op st hinv
    have h2 := ih (applyOp op st).2 (inv_applyOp op st hinv)
    simp only [runCount]
    omega

/-! ## Claim theorems: invariants, creation, deletion, listing -/

/-- C1: a create whose content is a string that is non-empty after
trimming returns 201 with a message whose content is the input exactly
as given and whose `createdAt` and `updatedAt` are the single computed
timestamp, and it appends exactly one new entry to the store. -/
theorem create_success (now : Nat) (ts s : String) (st : ServerState)
    (hre : Reachable st) (hv : jsTrim s ≠ "") :
    (postMessages now ts (.str s) st).1 =
      ⟨201, .msg ⟨genId now st.idCounter, s, ts, ts⟩⟩ ∧
    (⟨genId now st.idCounter, s, ts, ts⟩ : Message).content = s ∧
    (⟨genId now st.idCounter, s, ts, ts⟩ : Message).createdAt =
      (⟨genId now st.idCounter, s, ts, ts⟩ : Message).updatedAt ∧
    mapGet st.messages (genId now st.idCounter) = none ∧
    (postMessages now ts (.str s) st).2.messages =
      st.messages ++ [(genId now st.idCounter, ⟨genId now st.idCounter, s, ts, ts⟩)] := by
  have hc := contentInvalid_str s hv
  have hfresh := fresh_key st (reachable_inv hre) now
  have happ := mapSet_fresh st.messages (genId now st.idCounter)
    ⟨genId now st.idCounter, s, ts, ts⟩ hfresh
  refine ⟨?_, rfl, rfl, hfresh, ?_⟩
  · simp [postMessages, hc, asString]
  · simp [postMessages, hc, asString, happ]

/-- Witness for C1: create "hi" in the initial state. -/
theorem create_success_witness :
    (postMessages 7 "T" (.str "hi") initState).1 =
      ⟨201, .msg ⟨genId 7 initState.idCounter, "hi", "T", "T"⟩⟩ ∧
    (⟨genId 7 initState.idCounter, "hi", "T", "T"⟩ : Message).content = "hi" ∧
    (⟨genId 7 initState.idCounter, "hi", "T", "T"⟩ : Message).createdAt =
      (⟨genId 7 initState.idCounter, "hi", "T", "T"⟩ : Message).updatedAt ∧
    mapGet initState.messages (genId 7 initState.idCounter) = none ∧
    (postMessages 7 "T" (.str "hi") initState).2.messages =
      initState.messages ++
        [(genId 7 initState.idCounter, ⟨genId 7 initState.idCounter, "hi", "T", "T"⟩)] :=
  create_success 7 "T" "hi" initState Reachable.init (by decide)

/-- C4 (amended): deleting a present id returns 204 with an empty body and
removes the entry; after any further requests none of which is a
successful create of that id, a get or delete of the id, and an update of
the id with valid content, all report 404 not-found.  (An update with
invalid content instead fails validation with 400, see the
counterexample.) -/
theorem delete_then_not_found (id : String) (st : ServerState) (m : Message)
    (hre : Reachable st) (hm : mapGet st.messages id = some m) :
    (deleteMessage id st).1 = ⟨204, .empty⟩ ∧
    mapGet (deleteMessage id st).2.messages id = none ∧
    ∀ ops, NoCreateOf ops (deleteMessage id st).2 id →
      (getOneMessage id (execTrace ops (deleteMessage id st).2)).1 =
        ⟨404, .err notFoundMsg⟩ ∧
      (deleteMessage id (execTrace ops (deleteMessage id st).2)).1 =
        ⟨404, .err notFoundMsg⟩ ∧
      ∀ s ts, jsTrim s ≠ "" →
        (putMessage id (.str s) ts (execTrace ops (deleteMessage id st).2)).1 =
          ⟨404, .err notFoundMsg⟩ := by
  have hinv := reachable_inv hre
  have hdel : mapGet (deleteMessage id st).2.messages id = none := by
    have hmsgs : (deleteMessage id st).2.messages = mapDelete st.messages id := by
      simp [deleteMessage, hm]
    rw [hmsgs]
    exact mapGet_mapDelete_self _ _ hinv.2
  have hdel404 : ∀ st2 : ServerState, mapGet st2.messages id = none →
      (deleteMessage id st2).1 = ⟨404, .err notFoundMsg⟩ := by
    intro st2 h2
    simp [deleteMessage, h2]
  have hget404 : ∀ st2 : ServerState, mapGet st2.messages id = none →
      (getOneMessage id st2).1 = ⟨404, .err notFoundMsg⟩ := by
    intro st2 h2
    simp [getOneMessage, h2]
  refine ⟨by simp [deleteMessage, hm], hdel, ?_⟩
  intro ops hnc
  have habs := absent_preserved_trace ops _ id hdel hnc
  refine ⟨hget404 _ habs, hdel404 _ habs, ?_⟩
  intro s ts hv
  simp [putMessage, contentInvalid_str s hv, habs]

/-- Witness for C4's amended theorem: create then delete in the initial
state. -/
theorem delete_then_not_found_witness :
    (deleteMessage "0-0" (postMessages 0 "T" (.str "hi") initState).2).1 =
      ⟨204, .empty⟩ ∧
    mapGet (deleteMessage "0-0"
        (postMessages 0 "T" (.str "hi") initState).2).2.messages "0-0" = none :=
  ⟨(delete_then_not_found "0-0" (postMessages 0 "T" (.str "hi") initState).2
      ⟨"0-0", "hi", "T", "T"⟩
      (Reachable.step (.create 0 "T" (.str "hi")) Reachable.init) (by decide)).1,
   (delete_then_not_found "0-0" (postMessages 0 "T" (.str "hi") initState).2
      ⟨"0-0", "hi", "T", "T"⟩
      (Reachable.step (.create 0 "T" (.str "hi")) Reachable.init) (by decide)).2.1⟩

/-- C4 counterexample to the claim as stated: after deleting the only
message, an update on the deleted id with whitespace-only content yields
status 400 (validation runs before the existence check), not the 404 the
claim asserts for every subsequent update. -/
theorem delete_then_update_invalid_counterexample :
    (deleteMessage "0-0" (postMessages 0 "T" (.str "hi") initState).2).1.status = 204 ∧
    mapGet (deleteMessage "0-0"
        (postMessages 0 "T" (.str "hi") initState).2).2.messages "0-0" = none ∧
    (putMessage "0-0" (.str " ") "T2"
        (deleteMessage "0-0" (postMessages 0 "T" (.str "hi") initState).2).2).1.status = 400 ∧
    (putMessage "0-0" (.str " ") "T2"
        (deleteMessage "0-0" (postMessages 0 "T" (.str "hi") initState).2).2).1.status ≠ 404 := by
  decide

/-- C6: the list operation always succeeds with 200 and returns exactly
the stored messages in insertion order (empty store giving the empty
sequence), and after any trace from the initial state the number of
messages it returns is the number of successful creates minus the number
of successful deletes. -/
theorem list_returns_store :
    (∀ st : ServerState,
      getAllMessages st = (⟨200, .msgs (st.messages.map Prod.snd)⟩, st)) ∧
    (∀ ops : List Op, ∃ l : List Message,
      (getAllMessages (runCount ops initState).1).1 = ⟨200, .msgs l⟩ ∧
      l.length + (runCount ops initState).2.2 = (runCount ops initState).2.1) := by
  refine ⟨fun st => rfl, fun ops => ?_⟩
  refine ⟨((runCount ops initState).1.messages.map Prod.snd), rfl, ?_⟩
  have h := runCount_length ops initState inv_init
  simpa [initState] using h

/-- C8: the id generator yields distinct tokens for distinct counter
values (so successive calls, which use strictly increasing counters,
never collide even at the same instant), and in every reachable state
the stored message ids are pairwise distinct. -/
theorem message_ids_unique :
    (∀ n c n' c' : Nat, c ≠ c' → genId n c ≠ genId n' c') ∧
    ∀ st, Reachable st → (st.messages.map Prod.fst).Nodup := by
  constructor
  · intro n c n' c' hne heq
    exact hne (genId_inj_counter heq)
  · intro st hre
    exact (reachable_inv hre).2

/-- Witness for C8: two generator calls at the same instant with
counters 0 and 1, and the initial state's (empty) id list. -/
theorem message_ids_unique_witness :
    genId 5 0 ≠ genId 5 1 ∧ (initState.messages.map Prod.fst).Nodup :=
  ⟨message_ids_unique.1 5 0 5 1 (by decide),
   message_ids_unique.2 initState Reachable.init⟩

/-- C9: in every reachable state, every stored message's content is
neither the empty string nor whitespace-only. -/
theorem stored_content_never_blank (st : ServerState) (hre : Reachable st) :
    ∀ p ∈ st.messages, p.2.content ≠ "" ∧ jsTrim p.2.content ≠ "" := by
  intro p hp
  have h := (reachable_inv hre).1 p hp
  refine ⟨?_, h.2⟩
  intro h0
  apply h.2
  rw [h0]
  decide

/-- Witness for C9: the single message of the state reached by one
successful create. -/
theorem stored_content_never_blank_witness :
    ((("0-0", ⟨"0-0", "hi", "T", "T"⟩) : String × Message)).2.content ≠ "" ∧
    jsTrim ((("0-0", ⟨"0-0", "hi", "T", "T"⟩) : String × Message)).2.content ≠ "" :=
  stored_content_never_blank (applyOp (.create 0 "T" (.str "hi")) initState).2
    (Reachable.step (.create 0 "T" (.str "hi")) Reachable.init)
    ("0-0", ⟨"0-0", "hi", "T", "T"⟩) (by decide)

/-- C10: a request body that is entirely absent (`undefined`) makes the
create and update handlers throw on destructuring `request.body` before
the validation check runs, so no 400 validation response is produced
(the throw escapes as an unhandled server error). -/
theorem absent_body_throws (now : Nat) (ts : String) (id : String) (st : ServerState) :
    postHandlerBody now ts .undefined st = none ∧
    putHandlerBody id .undefined ts st = none :=
  ⟨rfl, rfl⟩

end MessageService
